import Mathlib

/-!
Verification model of the Ersatzteilkatalog-Generator data pipeline.

This file gives a shallow embedding of the core data pipeline of the
repository:

* `Klassen/rule_engine.py` — `RuleEngine` (dependency-ordered evaluation of
  `generation_rules`),
* `Klassen/stueckliste.py` — `Stueckliste._load_data` (loading and filtering
  one BOM spreadsheet) and `BomProcessor` (`_load_all_boms`,
  `_link_assemblies`, `run`),
* `Klassen/generator.py` — the POS sort key used by
  `DocxGenerator._create_table_for_assembly`.

Spreadsheet cell values are modelled by `PyVal`: Python `None`, the float
`nan`, strings, and decimal numbers `vDec n k` denoting `n / 10^k` (an Excel
numeric cell as pandas reads it; `k = 0` models a Python `int`, `k > 0` a
float whose `repr` is the usual decimal form).  Scientific notation and the
textual forms `"inf"`/`"nan"` accepted by Python's float parser are outside
the model; none of the claims depend on them.

All string operations are re-implemented by structural recursion on
`List Char` so that every definition evaluates inside the kernel
(`decide`/`rfl`); the built-in `String` operations use well-founded
recursion and do not reduce definitionally.
-/

namespace Katalog

/-- A Python scalar value as it occurs in a pandas cell / row dictionary. -/
inductive PyVal where
  | vNone : PyVal
  | vNan : PyVal
  | vStr (s : String) : PyVal
  | vDec (n : Int) (k : Nat) : PyVal
deriving DecidableEq

export PyVal (vNone vNan vStr vDec)

/-! ## String helpers mirroring the Python string methods used by the code -/

/-- Characters stripped by Python `str.strip()` (ASCII whitespace model). -/
def isSpaceChar (c : Char) : Bool :=
  c == ' ' || c == '\t' || c == '\n' || c == '\r'

/-- Strip whitespace from both ends of a character list. -/
def trimChars (l : List Char) : List Char :=
  ((l.dropWhile isSpaceChar).reverse.dropWhile isSpaceChar).reverse

/-- Python `s.strip()`. -/
def pyStrip (s : String) : String := String.mk (trimChars s.data)

/-- `c` is one of the characters of `chars`. -/
def charIn (chars : List Char) (c : Char) : Bool := chars.contains c

/-- Python `s.strip(chars)`: remove any of the given characters from both
ends. -/
def pyStripChars (chars : String) (s : String) : String :=
  String.mk (((s.data.dropWhile (charIn chars.data)).reverse.dropWhile
    (charIn chars.data)).reverse)

/-- Split a character list at every occurrence of the character `c`.
The result is never empty, matching Python `s.split(c)`. -/
def splitCAux (c : Char) : List Char → List Char → List (List Char)
  | [], acc => [acc.reverse]
  | x :: xs, acc =>
      if x == c then acc.reverse :: splitCAux c xs [] else splitCAux c xs (x :: acc)

/-- Python `s.split(c)` for a single-character separator. -/
def pySplit (c : Char) (s : String) : List String :=
  (splitCAux c s.data []).map String.mk

/-- Python `s.split("(")[0]`: the prefix of `s` before the first `(`. -/
def beforeParen (s : String) : String := (pySplit '(' s).headD ""

/-- Python `s.replace(".", "", 1)`: remove the first `.` only. -/
def removeFirstDotChars : List Char → List Char
  | [] => []
  | x :: xs => if x == '.' then xs else x :: removeFirstDotChars xs

/-- Python `s.replace(".", "", 1)` on strings. -/
def removeFirstDot (s : String) : String := String.mk (removeFirstDotChars s.data)

/-- Remove every occurrence of the character `c` (Python `s.replace(c, "")`). -/
def removeAllChar (c : Char) (s : String) : String :=
  String.mk (s.data.filter (fun x => !(x == c)))

/-- Python `separator.replace("\\n", "\n")`: turn every literal
backslash-n pair into a newline, as the rule engine does for `combine`
separators. -/
def unescapeNewlines : List Char → List Char
  | [] => []
  | '\\' :: 'n' :: rest => '\n' :: unescapeNewlines rest
  | x :: xs => x :: unescapeNewlines xs

/-- `unescapeNewlines` on strings. -/
def pyUnescapeNewlines (s : String) : String := String.mk (unescapeNewlines s.data)

/-- Join a list of strings with a separator (Python `sep.join(parts)`). -/
def joinWith (sep : String) : List String → String
  | [] => ""
  | [p] => p
  | p :: q :: rest => p ++ sep ++ joinWith sep (q :: rest)

/-- Substring test, modelling Python `sub in s`. -/
def strContainsSub (s sub : String) : Bool :=
  s.data.tails.any (fun t => sub.data.isPrefixOf t)

/-- Python `s.startswith(p)`. -/
def pyStartsWith (p s : String) : Bool := p.data.isPrefixOf s.data

/-- Python `s.endswith(p)`. -/
def pyEndsWith (p s : String) : Bool := p.data.reverse.isPrefixOf s.data.reverse

/-- Python `s.lower()` (ASCII model). -/
def pyLower (s : String) : String := String.mk (s.data.map Char.toLower)

/-- All characters are decimal digits. -/
def allDigits (l : List Char) : Bool := l.all Char.isDigit

/-- Python `str.isdigit()` (ASCII model): nonempty and all digits. -/
def pyIsdigit (s : String) : Bool := !s.data.isEmpty && allDigits s.data

/-! ## Numeric parsers (Python `float()` / `int()` on decimal literals)

Exact decimal numbers are carried as pairs `(n : Int, k : Nat)` denoting the
rational `n / 10^k`.  All arithmetic on them is `Int`/`Nat` arithmetic, which
the kernel evaluates; the rational value is recovered by `qval` for the
claim-level statements. -/

/-- The rational value of the decimal pair `(n, k)`, namely `n / 10^k`. -/
def qval (n : Int) (k : Nat) : ℚ := (n : ℚ) / (10 : ℚ) ^ k

/-- `c.toNat - '0'.toNat` for a digit character. -/
def digitVal (c : Char) : Nat := c.toNat - 48

/-- Numeric value of a digit list (0 for the empty list). -/
def natOfDigits (l : List Char) : Nat :=
  l.foldl (fun acc c => acc * 10 + digitVal c) 0

/-- Parse an unsigned decimal literal: digits with at most one dot and at
least one digit overall.  `a.b` denotes `(a * 10^|b| + b) / 10^|b|`. -/
def parseUnsignedDec (u : List Char) : Option (Int × Nat) :=
  match splitCAux '.' u [] with
  | [a] => if !a.isEmpty && allDigits a then some ((natOfDigits a : Int), 0) else none
  | [a, b] =>
      if (!a.isEmpty || !b.isEmpty) && allDigits a && allDigits b then
        some ((natOfDigits a * 10 ^ b.length + natOfDigits b : Nat), b.length)
      else none
  | _ => none

/-- Parse an optionally signed decimal literal. -/
def parseSignedDec (t : List Char) : Option (Int × Nat) :=
  match t with
  | [] => none
  | c :: rest =>
      if c == '-' then (parseUnsignedDec rest).map (fun p => (-p.1, p.2))
      else if c == '+' then parseUnsignedDec rest
      else parseUnsignedDec (c :: rest)

/-- Python `float(s)` on plain decimal literals (no exponent/`inf`/`nan`):
optional surrounding whitespace, optional sign, digits with at most one
dot. -/
def parseFloat (s : String) : Option (Int × Nat) := parseSignedDec (trimChars s.data)

/-- Parse an optionally signed integer literal. -/
def parseSignedInt (t : List Char) : Option Int :=
  let core (u : List Char) : Option Nat :=
    if !u.isEmpty && allDigits u then some (natOfDigits u) else none
  match t with
  | '-' :: rest => (core rest).map (fun m => -(m : Int))
  | '+' :: rest => (core rest).map (fun m => (m : Int))
  | _ => (core t).map (fun m => (m : Int))

/-- Python `int(s)` on integer literals. -/
def parseIntStr (s : String) : Option Int := parseSignedInt (trimChars s.data)

/-- Truncation of the decimal `n / 10^k` toward zero, as Python
`int(float)` / `astype(int)` truncate (`Int.div` is T-division). -/
def truncD (n : Int) (k : Nat) : Int := Int.tdiv n (10 ^ k)

/-- The decimal `n / 10^k` is a whole number. -/
def isWholeD (n : Int) (k : Nat) : Bool := n % ((10 : Int) ^ k) == 0

/-- The decimal `n / 10^k` equals the integer `m`. -/
def dEqInt (n : Int) (k : Nat) (m : Int) : Bool := n == m * 10 ^ k

namespace PyVal

/-- Python truthiness (`bool(v)`): `None` is falsy, `nan` is truthy,
a string is truthy iff nonempty, a number iff nonzero. -/
def pyTruthy : PyVal → Bool
  | vNone => false
  | vNan => true
  | vStr s => !s.data.isEmpty
  | vDec n _ => !(n == 0)

/-- `pd.notna(v)`: false exactly on `None` and `nan`. -/
def pdNotna : PyVal → Bool
  | vNone => false
  | vNan => false
  | vStr _ => true
  | vDec _ _ => true

/-- `pd.isna(v)`. -/
def isNa (v : PyVal) : Bool := !v.pdNotna

/-- The digit characters of a natural number, most significant first. -/
def natDigitsAux : Nat → Nat → List Char
  | 0, _ => []
  | _ + 1, 0 => []
  | fuel + 1, m + 1 =>
      natDigitsAux fuel ((m + 1) / 10) ++ [Char.ofNat (48 + (m + 1) % 10)]

/-- Decimal digit string of a natural number (`str(m)` for `m : Nat`). -/
def natRepr (m : Nat) : List Char :=
  if m = 0 then ['0'] else natDigitsAux m m

/-- Zero-padded digit list of length at least `k` for a natural number,
used for the fractional part of a float `repr`. -/
def padDigits (k : Nat) (m : Nat) : List Char :=
  let s := natRepr m
  List.replicate (k - s.length) '0' ++ s

/-- Decimal `repr` of `vDec n k`: the integer form for `k = 0`, otherwise
`intpart.fracpart` with the fractional part padded to `k` digits. -/
def decRepr (n : Int) (k : Nat) : String :=
  let sign : List Char := if n < 0 then ['-'] else []
  if k = 0 then String.mk (sign ++ natRepr n.natAbs)
  else
    String.mk (sign ++ natRepr (n.natAbs / 10 ^ k) ++ '.' ::
      padDigits k (n.natAbs % 10 ^ k))

/-- Python `str(v)`. -/
def pyStr : PyVal → String
  | vNone => "None"
  | vNan => "nan"
  | vStr s => s
  | vDec n k => decRepr n k

end PyVal

/-- `pd.to_numeric(v, errors='coerce')`: numbers keep their value, strings
are parsed as floats, `None`/`nan` (and unparsable strings) give `NaN`,
modelled as `none`. -/
def toNumeric : PyVal → Option (Int × Nat)
  | vDec n k => some (n, k)
  | vStr s => parseFloat s
  | vNone => none
  | vNan => none

/-- The rational value of `pd.to_numeric(v)` when it is not `NaN`. -/
def toNumericQ (v : PyVal) : Option ℚ := (toNumeric v).map (fun p => qval p.1 p.2)

example : parseFloat "3.5" = some (35, 1) := by decide
example : parseFloat " -12" = some (-12, 0) := by decide
example : parseFloat "abc" = none := by decide
example : parseFloat "" = none := by decide
example : PyVal.pyStr (vDec (-35) 1) = "-3.5" := by decide
example : PyVal.pyStr (vDec 305 2) = "3.05" := by decide
example : PyVal.pyStr (vDec 3 0) = "3" := by decide
example : truncD 35 1 = 3 := by decide
example : truncD (-35) 1 = -3 := by decide
example : isWholeD 30 1 = true := by decide
example : isWholeD 35 1 = false := by decide
example : removeFirstDot "3.5.5" = "35.5" := by decide
example : pyIsdigit "35" = true := by decide
example : pyIsdigit "-3" = false := by decide
example : beforeParen "07.123-4 (Rev.B)" = "07.123-4 " := by decide
example : pyStrip "  a b " = "a b" := by decide
example : strContainsSub "hello" "ell" = true := by decide
example : strContainsSub "hello" "" = true := by decide
example : joinWith "-" ["M6", "20"] = "M6-20" := by decide
example : pyUnescapeNewlines "a\\nb" = "a\nb" := by decide

/-! ## Association lists as Python dictionaries -/

/-- First-match association-list lookup (Python `d[k]` / `d.get(k)`). -/
def alGet {α : Type} : List (String × α) → String → Option α
  | [], _ => none
  | (k', v) :: rest, k => if k' == k then some v else alGet rest k

/-- Python dict assignment `d[k] = v`: overwrite the (unique) existing
entry in place, otherwise append at the end (dicts preserve insertion
order). -/
def alSet {α : Type} : List (String × α) → String → α → List (String × α)
  | [], k, v => [(k, v)]
  | p :: rest, k, v => if p.1 == k then (k, v) :: rest else p :: alSet rest k v

/-- A data row: field name → value, in dictionary order. -/
abbrev PRow := List (String × PyVal)

/-- Python `row.get(k, d)`. -/
def rowGetD (row : PRow) (k : String) (d : PyVal) : PyVal := (alGet row k).getD d

/-! ## Rule engine (`Klassen/rule_engine.py`) -/

/-- One entry of `generation_rules`, modelling the JSON rule dictionary.
Absent keys are `none` / `[]`; the defaults the Python code supplies at use
sites (`separator` → `" "`, `if.value` → `""`) are applied in the
evaluation functions below, as the code does. -/
structure Rule where
  rtype : Option String := none
  sources : List String := []
  separator : Option String := none
  ifSource : Option String := none
  ifOperator : Option String := none
  ifValue : Option String := none
  thenSource : Option String := none
  elseSource : Option String := none
deriving DecidableEq, Inhabited

/-- A rule set (the `generation_rules` dict), in insertion order. -/
abbrev Rules := List (String × Rule)

/-- Walk a source list and return `str(value).strip()` of the first source
whose raw row value is truthy and not NA (the loop body of
`_apply_prioritized_list`). -/
def firstTruthy (row : PRow) : List String → String
  | [] => ""
  | s :: rest =>
      let v := rowGetD row s vNone
      if v.pyTruthy && v.pdNotna then pyStrip v.pyStr else firstTruthy row rest

/-- `RuleEngine._apply_prioritized_list`. -/
def applyPrioritizedList (rule : Rule) (row : PRow) : String :=
  firstTruthy row rule.sources

/-- `RuleEngine._apply_combine`: join the stripped values of all truthy,
non-NA sources with the separator (after `separator.replace("\\n", "\n")`;
missing separator defaults to a single space). -/
def applyCombine (rule : Rule) (row : PRow) : String :=
  let parts := rule.sources.filterMap (fun s =>
    let v := rowGetD row s vNone
    if v.pyTruthy && v.pdNotna then some (pyStrip v.pyStr) else none)
  joinWith (pyUnescapeNewlines (rule.separator.getD " ")) parts

/-- `RuleEngine._evaluate_condition`. -/
def evaluateCondition (sourceValue : String) (op : Option String)
    (compareValue : String) : Bool :=
  if op == some "is_empty" then sourceValue.data.isEmpty
  else if op == some "is_not_empty" then !sourceValue.data.isEmpty
  else
    let compareList := (pySplit ';' compareValue).map pyStrip
    if op == some "is" then compareList.contains sourceValue
    else if op == some "is_not" then !compareList.contains sourceValue
    else if op == some "contains" then
      compareList.any (fun sub => strContainsSub sourceValue sub)
    else false

/-- `RuleEngine._apply_conditional`.  A missing `if.source` key makes
`row_data.get(None, "")` return `""`. -/
def applyConditional (rule : Rule) (row : PRow) : String :=
  let rawIf := match rule.ifSource with
    | none => vStr ""
    | some k => rowGetD row k (vStr "")
  let sourceValue := pyStrip rawIf.pyStr
  let conditionMet := evaluateCondition sourceValue rule.ifOperator (rule.ifValue.getD "")
  let resultSource := if conditionMet then rule.thenSource else rule.elseSource
  let finalValue := match resultSource with
    | none => vNone
    | some k => rowGetD row k vNone
  if finalValue.pyTruthy && finalValue.pdNotna then pyStrip finalValue.pyStr else ""

/-- Dispatch on `rule.get("type")`; unknown types produce `""`
(the `result = ""` initialisation in `process_row`). -/
def applyRule (rule : Rule) (row : PRow) : String :=
  if rule.rtype == some "prioritized_list" then applyPrioritizedList rule row
  else if rule.rtype == some "combine" then applyCombine rule row
  else if rule.rtype == some "conditional" then applyConditional rule row
  else ""

/-- The dependency sources `_get_execution_order` collects for one rule,
before the `filter(None, ...)` step. -/
def ruleRawSources (rule : Rule) : List (Option String) :=
  if rule.rtype == some "prioritized_list" || rule.rtype == some "combine" then
    rule.sources.map some
  else if rule.rtype == some "conditional" then
    [rule.ifSource, rule.thenSource, rule.elseSource]
  else []

/-- `filter(None, sources)`: keep only non-`None`, nonempty names. -/
def ruleSources (rule : Rule) : List String :=
  (ruleRawSources rule).filterMap (fun o => match o with
    | some s => if s.data.isEmpty then none else some s
    | none => none)

/-- The edge list `source → target` of the rule-dependency graph, in the
order the Python code inserts edges (only sources that are themselves rule
names become edges). -/
def ruleEdges (rules : Rules) : List (String × String) :=
  (rules.map (fun tr =>
    ((ruleSources tr.2).filter (fun s => rules.any (fun r => r.1 == s))).map
      (fun s => (s, tr.1)))).flatten

/-- Initial in-degree of `name` in the rule-dependency graph. -/
def indeg0 (edges : List (String × String)) (name : String) : Nat :=
  (edges.filter (fun e => e.2 == name)).length

/-- Adjacency list `graph[s]`. -/
def adjOf (edges : List (String × String)) (s : String) : List String :=
  (edges.filter (fun e => e.1 == s)).map (fun e => e.2)

/-- Kahn's algorithm main loop: FIFO queue, decrement each neighbour's
in-degree, enqueue it when the degree reaches zero.  The fuel is an upper
bound on the number of dequeues (each node is enqueued at most once, so
`|names|` suffices); it returns the collected order and the final
in-degree map. -/
def kahnLoop (adj : String → List String) :
    Nat → List String → (String → Nat) → List String → List String × (String → Nat)
  | 0, _, deg, out => (out, deg)
  | _ + 1, [], deg, out => (out, deg)
  | fuel + 1, node :: rest, deg, out =>
      let st := (adj node).foldl
        (fun (st : List String × (String → Nat)) nb =>
          let d := st.2 nb - 1
          ((if d == 0 then st.1 ++ [nb] else st.1),
           fun x => if x == nb then d else st.2 x))
        (rest, deg)
      kahnLoop adj fuel st.1 st.2 (out ++ [node])

/-- Run Kahn's algorithm on the dependency graph of a rule set:
the topologically sorted order and the final in-degree map. -/
def kahnRun (rules : Rules) : List String × (String → Nat) :=
  let names := rules.map (fun r => r.1)
  let edges := ruleEdges rules
  let deg0 : String → Nat := fun n => indeg0 edges n
  let q0 := names.filter (fun n => deg0 n == 0)
  kahnLoop (adjOf edges) names.length q0 deg0 []

/-- `RuleEngine._get_execution_order`: `none` models the `return None` on a
detected cycle. -/
def getExecutionOrder (rules : Rules) : Option (List String) :=
  let res := kahnRun rules
  if res.1.length == rules.length then some res.1 else none

/-- The rule names reported as cycle members
(`in_degree.items() if degree > 0` after the sort), in dictionary order. -/
def cycleNodes (rules : Rules) : List String :=
  (rules.map (fun r => r.1)).filter (fun n => !((kahnRun rules).2 n == 0))

/-- `RuleEngine.process_row`: empty result when compilation failed,
otherwise evaluate the rules in topological order, making each result
visible to later rules through the local row copy. -/
def processRow (rules : Rules) (row : PRow) : List (String × String) :=
  match getExecutionOrder rules with
  | none => []
  | some order =>
      (order.foldl (fun (st : PRow × List (String × String)) target =>
        let rule := (alGet rules target).getD default
        let result := applyRule rule st.1
        (alSet st.1 target (vStr result), alSet st.2 target result))
      (row, [])).2

example :
    processRow [("out", { rtype := some "prioritized_list", sources := ["x", "y"] })]
      [("x", vStr ""), ("y", vStr "5")] = [("out", "5")] := by decide

example :
    processRow [("out", { rtype := some "prioritized_list", sources := ["x", "y"] })]
      [("x", vStr " "), ("y", vStr "")] = [("out", "")] := by decide

example :
    getExecutionOrder
      [("A", { rtype := some "prioritized_list", sources := ["B"] }),
       ("B", { rtype := some "prioritized_list", sources := ["A"] })] = none := by decide

example :
    cycleNodes
      [("A", { rtype := some "prioritized_list", sources := ["B"] }),
       ("B", { rtype := some "prioritized_list", sources := ["A"] })] = ["A", "B"] := by decide

example :
    processRow
      [("b", { rtype := some "combine", sources := ["a", "Benennung"], separator := some "-" }),
       ("a", { rtype := some "combine", sources := ["x", "y"], separator := some "\\n" })]
      [("x", vStr "M6"), ("y", vStr "20"), ("Benennung", vStr "Z")] =
      [("a", "M6\n20"), ("b", "M6\n20-Z")] := by decide

/-! ## BOM loader (`Stueckliste._load_data`) -/

/-- A position value: a raw spreadsheet cell, or — after the linking pass —
a reference to a sub-assembly `BomRecord`, identified by its registry key
(the Python code stores a pointer to the shared `Stueckliste` object;
the registry key plays the role of that pointer here). -/
inductive PosVal where
  | cell (v : PyVal)
  | subAssembly (key : String)
deriving DecidableEq

/-- A position dictionary as stored in `Stueckliste.positionen`. -/
abbrev Pos := List (String × PosVal)

/-- The configuration slice `_load_data` consumes: `column_mapping`
converted to 0-based indices (`ConfigManager.get_column_indices`, in
insertion order) and `output_columns` as (id, source_id) pairs, where an
absent `source_id` is `""`. -/
structure LoadCfg where
  colIndices : List (String × Nat)
  outputColumns : List (String × String)
deriving DecidableEq

/-- One spreadsheet file as the loader sees it: whether the `Import` sheet
exists, the drawing-number header cell, the column count of the item block
read with `skiprows=5`, and its rows (cells beyond a row's length are
`NaN`, as pandas pads them). -/
structure XFile where
  hasImportSheet : Bool
  znrCell : PyVal
  ncols : Nat
  rows : List (List PyVal)
deriving DecidableEq

/-- The outcome of loading one file (`Stueckliste` after `_load_data`). -/
structure BomRecord where
  zeichnungsnummer : String
  positionen : List Pos
  isLoaded : Bool
deriving DecidableEq

/-- Cleaning of the drawing number at load time:
`str(value or '').split('(')[0].strip().replace(' ', '')`. -/
def cleanDrawingNumber (v : PyVal) : String :=
  let raw := if v.pyTruthy then v.pyStr else ""
  removeAllChar ' ' (pyStrip (beforeParen raw))

/-- `df.iloc[row, i]`: cells beyond the stored row are `NaN`. -/
def cellAt (r : List PyVal) (i : Nat) : PyVal := r.getD i vNan

/-- `dropna(how='all')` keeps a row iff some cell is not NA. -/
def rowNotAllNa (r : List PyVal) : Bool := !(r.all PyVal.isNa)

/-- Filter 1a: `pd.to_numeric(df.iloc[:, 0], errors='coerce').notna()`. -/
def posNumericOK (r : List PyVal) : Bool := (toNumeric (cellAt r 0)).isSome

/-- `astype(int)` on one cell: numbers truncate toward zero, strings are
parsed with `int()` (a non-integer literal raises, so `none`). -/
def astypeIntCell (v : PyVal) : Option Int :=
  match v with
  | vDec n k => some (truncD n k)
  | vStr s => parseIntStr s
  | _ => none

/-- Whether `df.iloc[:, 0].astype(int)` raises on the already
numeric-filtered rows, aborting the whole file. -/
def astypeRaises (rows : List (List PyVal)) : Bool :=
  rows.any (fun r => (astypeIntCell (cellAt r 0)).isNone)

/-- Filter 1b, elementwise `df.iloc[:, 0] == df.iloc[:, 0].astype(int)`:
a number is kept iff it equals its own truncation; a string compared with
an `int` is always `False` in Python. -/
def posEqAstype (r : List PyVal) : Bool :=
  match cellAt r 0 with
  | vDec n k => dEqInt n k (truncD n k)
  | _ => false

/-- Filter 2: `df.iloc[:, 12].isin([1, 4, 5])` (the column index 12 is
hard-coded in `_load_data`, like the index 0 of filter 1). -/
def teileartOK (r : List PyVal) : Bool :=
  match cellAt r 12 with
  | vDec n k => dEqInt n k 1 || dEqInt n k 4 || dEqInt n k 5
  | _ => false

/-- The rows surviving `dropna` and filter 1a. -/
def rowsNumeric (f : XFile) : List (List PyVal) :=
  (f.rows.filter rowNotAllNa).filter posNumericOK

/-- The rows surviving all three filters of `_load_data`. -/
def keptRows (f : XFile) : List (List PyVal) :=
  ((rowsNumeric f).filter posEqAstype).filter teileartOK

/-- Phase 4: `pos_dict[name] = row.get(col_idx, '')` for every configured
column, in configuration order. -/
def mkPosition (cfg : LoadCfg) (ncols : Nat) (r : List PyVal) : PRow :=
  cfg.colIndices.map (fun p => (p.1, if p.2 < ncols then cellAt r p.2 else vStr ""))

/-- `DataFrame(...).fillna('')` on one position. -/
def fillnaRow (row : PRow) : PRow :=
  row.map (fun p => (p.1, if p.2.isNa then vStr "" else p.2))

/-- `str(row.get(k, ''))`. -/
def rowStrD (row : PRow) (k : String) : String := (rowGetD row k (vStr "")).pyStr

/-- `format_benennung_multiline`. -/
def formatBenennung (row : PRow) : String :=
  let b := pyStrip (rowStrD row "Benennung")
  let z := pyStrip (rowStrD row "Zusatzbenennung")
  if !z.data.isEmpty then b ++ "\n" ++ z else b

/-- Strip trailing decimal zeros of the pair `(n, k)` (value preserved). -/
def reduceDec (n : Int) : Nat → Int × Nat
  | 0 => (n, 0)
  | k + 1 => if n % 10 == 0 then reduceDec (Int.tdiv n 10) k else (n, k + 1)

/-- Python `"{:g}".format(x)` for moderate decimals: the shortest decimal
form without trailing zeros (the 6-significant-digit rounding and the
exponent forms of `%g` are outside the model; no claim depends on them). -/
def gFormat (n : Int) (k : Nat) : String :=
  let p := reduceDec n k
  PyVal.decRepr p.1 p.2

/-- `format_menge`: `row['Menge_val']` raises `KeyError` when the column is
missing, and `"{:g}".format` raises on a non-numeric value; both abort the
file, modelled by `none`. -/
def formatMenge (row : PRow) : Option String :=
  match alGet row "Menge_val" with
  | none => none
  | some m =>
      let eRaw := rowStrD row "Einheit"
      let e := if eRaw == "1" || eRaw == "1.0" then "Stk" else eRaw
      if m.pdNotna && !(m == vStr "") then
        match m with
        | vDec n k => some (pyStrip (gFormat n k ++ " " ++ e))
        | _ => none
      else some ""

/-- `get_bestellnummer`: `str(AFPS or clean_teilenr or Hersteller_Nr or '')`. -/
def getBestellnummer (row : PRow) : String :=
  let cleanTeilenr := pyStrip (beforeParen (rowStrD row "Teilenummer"))
  let afps := rowGetD row "AFPS" vNone
  let herst := rowGetD row "Hersteller_Nr" vNone
  if afps.pyTruthy then afps.pyStr
  else if !cleanTeilenr.data.isEmpty then cleanTeilenr
  else if herst.pyTruthy then herst.pyStr
  else ""

/-- `get_information`. -/
def getInformation (row : PRow) : String :=
  let afps := rowGetD row "AFPS" vNone
  let teilenr := rowGetD row "Teilenummer" vNone
  let hasAfps := !(pyStrip (if afps.pyTruthy then afps.pyStr else "")).data.isEmpty
  let hasTnr := !(pyStrip (if teilenr.pyTruthy then teilenr.pyStr else "")).data.isEmpty
  if hasAfps || hasTnr then ""
  else
    let n := pyStrip (rowStrD row "Norm" ++ " " ++ rowStrD row "Abmessung")
    let h := pyStripChars " /" (rowStrD row "Hersteller" ++ " / " ++ rowStrD row "Hersteller_Nr")
    pyStrip (n ++ "\n" ++ h)

/-- Phase 5: add the four derived columns to one position, in assignment
order (`Benennung_Formatiert`, `Menge`, `Bestellnummer_Kunde`,
`Information`); `none` models an exception during `format_menge`. -/
def applyBusiness (row : PRow) : Option PRow :=
  let r1 := alSet row "Benennung_Formatiert" (vStr (formatBenennung row))
  match formatMenge r1 with
  | none => none
  | some mg =>
      let r2 := alSet r1 "Menge" (vStr mg)
      let r3 := alSet r2 "Bestellnummer_Kunde" (vStr (getBestellnummer r2))
      some (alSet r3 "Information" (vStr (getInformation r3)))

/-- Evaluate an option-valued function over a list, failing as a whole if
any element fails (the per-file exception handler). -/
def traverseOption {α β : Type} (g : α → Option β) : List α → Option (List β)
  | [] => some []
  | x :: xs =>
      match g x, traverseOption g xs with
      | some y, some ys => some (y :: ys)
      | _, _ => none

/-- Manual output columns: `df_final[col_id] = ""` for every configured
output column without a `source_id` whose id is not yet a column. -/
def addManualColumns (outCols : List (String × String)) (row : PRow) : PRow :=
  outCols.foldl (fun r p =>
    if p.2 == "" && !(r.any (fun q => q.1 == p.1)) then r ++ [(p.1, vStr "")] else r) row

/-- A loader position is a row of raw cells. -/
def posOfPRow (row : PRow) : Pos := row.map (fun p => (p.1, PosVal.cell p.2))

/-- `Stueckliste._load_data`: the complete per-file pipeline.  Every
early `return` and every caught exception yields `isLoaded = false`;
the drawing number is `""` until the header phase has run. -/
def loadData (cfg : LoadCfg) (f : XFile) : BomRecord :=
  if !f.hasImportSheet then ⟨"", [], false⟩ else
  let znr := cleanDrawingNumber f.znrCell
  match alGet cfg.colIndices "POS", alGet cfg.colIndices "Teileart" with
  | some posCol, some typeCol =>
      if f.ncols ≤ max posCol typeCol then ⟨znr, [], false⟩ else
      if astypeRaises (rowsNumeric f) then ⟨znr, [], false⟩ else
      if f.ncols ≤ 12 then ⟨znr, [], false⟩ else
      let positions := (keptRows f).map (mkPosition cfg f.ncols)
      if positions.isEmpty then ⟨znr, [], true⟩ else
      match traverseOption applyBusiness (positions.map fillnaRow) with
      | none => ⟨znr, [], false⟩
      | some enriched =>
          ⟨znr, (enriched.map (addManualColumns cfg.outputColumns)).map posOfPRow, true⟩
  | _, _ => ⟨znr, [], false⟩

/-! ## Folder processing (`BomProcessor`) -/

/-- A folder: filename → file contents. -/
abbrev Folder := List (String × XFile)

/-- The registry `BomProcessor.boms`. -/
abbrev Registry := List (String × BomRecord)

/-- `filename.lower().endswith((".xlsm", ".xlsx")) and not
filename.startswith('~')`. -/
def validBomFilename (name : String) : Bool :=
  (pyEndsWith ".xlsm" (pyLower name) || pyEndsWith ".xlsx" (pyLower name)) &&
    !(pyStartsWith "~" name)

/-- Lexicographic comparison of character lists by code point
(Python string `<`). -/
def charListLt : List Char → List Char → Bool
  | [], [] => false
  | [], _ :: _ => true
  | _ :: _, [] => false
  | a :: as, b :: bs =>
      if a.toNat < b.toNat then true
      else if b.toNat < a.toNat then false
      else charListLt as bs

/-- Python string `<`. -/
def strLt (a b : String) : Bool := charListLt a.data b.data

/-- Insert into a list sorted by filename (filenames in a folder are
distinct, so stability is not at issue). -/
def insertByName (x : String × XFile) : Folder → Folder
  | [] => [x]
  | y :: ys => if strLt x.1 y.1 then x :: y :: ys else y :: insertByName x ys

/-- `sorted(os.listdir(...))`: process files in ascending filename order. -/
def sortFolder : Folder → Folder
  | [] => []
  | x :: xs => insertByName x (sortFolder xs)

/-- The body of the `_load_all_boms` loop for one directory entry. -/
def loadStep (cfg : LoadCfg) (reg : Registry) (nf : String × XFile) : Registry :=
  if validBomFilename nf.1 then
    let bom := loadData cfg nf.2
    if bom.isLoaded && !bom.zeichnungsnummer.data.isEmpty then
      alSet reg bom.zeichnungsnummer bom
    else reg
  else reg

/-- `BomProcessor._load_all_boms`. -/
def loadAllBoms (cfg : LoadCfg) (folder : Folder) : Registry :=
  (sortFolder folder).foldl (loadStep cfg) []

/-- Cleaning of a position's part number in `_link_assemblies`:
`str(raw).strip()`, drop a parenthetical suffix, strip again, remove all
spaces. -/
def cleanTeilenummer (v : PyVal) : String :=
  removeAllChar ' ' (pyStrip (beforeParen (pyStrip v.pyStr)))

/-- Link one position: if the raw part number is truthy and its cleaned
form is a nonempty key of the registry, set `position['sub_assembly']` to
(a reference to) that record; otherwise leave the position untouched.
A `subAssembly` value cannot occur as `Teilenummer` in loader output. -/
def linkPosition (reg : Registry) (p : Pos) : Pos :=
  match alGet p "Teilenummer" with
  | some (PosVal.cell v) =>
      if v.pyTruthy then
        let finalT := cleanTeilenummer v
        if !finalT.data.isEmpty && (alGet reg finalT).isSome then
          alSet p "sub_assembly" (PosVal.subAssembly finalT)
        else p
      else p
  | some (PosVal.subAssembly _) => p
  | none => p

/-- `BomProcessor._link_assemblies`: membership is tested against the full
registry, including the record containing the position itself. -/
def linkAssemblies (reg : Registry) : Registry :=
  reg.map (fun kr =>
    (kr.1, { kr.2 with positionen := kr.2.positionen.map (linkPosition reg) }))

/-- `BomProcessor.run`: load everything, then link. -/
def bomProcessorRun (cfg : LoadCfg) (folder : Folder) : Registry :=
  linkAssemblies (loadAllBoms cfg folder)

/-- `ConfigManager._get_default_config()["column_mapping"]` as 0-based
indices, in insertion order (A B C D E F G J K L P M). -/
def defaultColIndices : List (String × Nat) :=
  [("POS", 0), ("Menge_val", 1), ("Einheit", 2), ("Benennung", 3),
   ("Zusatzbenennung", 4), ("Norm", 5), ("Abmessung", 6), ("Teilenummer", 9),
   ("Hersteller", 10), ("Hersteller_Nr", 11), ("AFPS", 15), ("Teileart", 12)]

/-- The default `output_columns` (id, source_id) pairs. -/
def defaultOutputColumns : List (String × String) :=
  [("std_pos", "POS"), ("std_menge", "Menge"), ("std_benennung", "Benennung_Formatiert"),
   ("std_bestellnr", "Bestellnummer_Kunde"), ("std_info", "Information"),
   ("std_seite", "Seite")]

/-- The default configuration slice. -/
def defaultCfg : LoadCfg := ⟨defaultColIndices, defaultOutputColumns⟩

/-! ## Generator sort key (`DocxGenerator._create_table_for_assembly`) -/

/-- `str(v)` for a position value.  The `repr` of a `Stueckliste` object
(never a `POS` value) is modelled by a non-numeric placeholder. -/
def posValStr : PosVal → String
  | PosVal.cell v => v.pyStr
  | PosVal.subAssembly k => "Stueckliste(ZN: " ++ k ++ ")"

/-- `float(v)` for a position value, where defined. -/
def posValFloat : PosVal → Option (Int × Nat)
  | PosVal.cell (vDec n k) => some (n, k)
  | PosVal.cell (vStr s) => parseFloat s
  | _ => none

/-- The sort key of `sorted(items, key=...)`:
`float(item.get("POS", 0))` when `str(item.get("POS", "0")).replace(".", "", 1).isdigit()`,
else `float("inf")`, modelled as `⊤` in `WithTop ℚ`.  (When the digit test
passes, the parse always succeeds, so the `none` fallback is unreachable.) -/
def posSortKey (item : Pos) : WithTop ℚ :=
  let vCond := (alGet item "POS").getD (PosVal.cell (vStr "0"))
  let vKey := (alGet item "POS").getD (PosVal.cell (vDec 0 0))
  if pyIsdigit (removeFirstDot (posValStr vCond)) then
    match posValFloat vKey with
    | some p => ((qval p.1 p.2 : ℚ) : WithTop ℚ)
    | none => ⊤
  else ⊤

/-! ## Association-list lemmas -/

theorem alGet_alSet_self {α : Type} (l : List (String × α)) (k : String) (v : α) :
    alGet (alSet l k v) k = some v := by
  induction l with
  | nil => simp [alSet, alGet]
  | cons p rest ih =>
      by_cases hp : p.1 == k
      · simp [alSet, hp, alGet]
      · simp [alSet, hp, alGet, ih]

theorem alGet_alSet_ne {α : Type} (l : List (String × α)) (k k' : String) (v : α)
    (h : k' ≠ k) : alGet (alSet l k v) k' = alGet l k' := by
  induction l with
  | nil => simp [alSet, alGet, Ne.symm h]
  | cons p rest ih =>
      by_cases hp : p.1 == k
      · have hp' : p.1 = k := by simpa using hp
        simp [alSet, hp, alGet, Ne.symm h, hp']
      · simp [alSet, hp, alGet, ih]

theorem alGet_append {α : Type} (l₁ l₂ : List (String × α)) (k : String) :
    alGet (l₁ ++ l₂) k = (alGet l₁ k).or (alGet l₂ k) := by
  induction l₁ with
  | nil => simp [alGet]
  | cons p rest ih =>
      by_cases hp : p.1 == k
      · simp [alGet, hp]
      · simp [alGet, hp, ih]

/-- `addManualColumns` never changes an existing column. -/
theorem alGet_addManualColumns {outCols : List (String × String)} {row : PRow}
    {k : String} {v : PyVal} (h : alGet row k = some v) :
    alGet (addManualColumns outCols row) k = some v := by
  unfold addManualColumns
  induction outCols generalizing row with
  | nil => simpa
  | cons oc rest ih =>
      simp only [List.foldl_cons]
      apply ih
      by_cases hc : oc.2 == "" && !(row.any (fun q => q.1 == oc.1))
      · simp only [hc, if_true]
        rw [alGet_append, h]
        rfl
      · simpa [hc]

/-- Looking up in a `posOfPRow` row wraps the value in `PosVal.cell`. -/
theorem alGet_posOfPRow (row : PRow) (k : String) :
    alGet (posOfPRow row) k = (alGet row k).map PosVal.cell := by
  induction row with
  | nil => simp [alGet, posOfPRow]
  | cons p rest ih =>
      by_cases hp : p.1 == k
      · simp [alGet, posOfPRow, hp]
      · simpa [alGet, posOfPRow, hp] using ih

/-! ## Claim C2: cycle detection disables evaluation -/

/-- The cyclic example rule set from the claim:
`A` depends on `B` and `B` depends on `A`. -/
def cycleExampleRules : Rules :=
  [("A", { rtype := some "prioritized_list", sources := ["B"] }),
   ("B", { rtype := some "prioritized_list", sources := ["A"] })]

/-- **C2**: on the cyclic example `A ↔ B`, compilation fails
(`_get_execution_order` returns `None`), the reported cycle members are
exactly `A` and `B` (the rules whose in-degree never reached zero), and —
for any rule set whose compilation failed — evaluation is entirely
disabled: `process_row` returns the empty result for every input row,
with no partial enrichment. -/
theorem claim_C2 :
    getExecutionOrder cycleExampleRules = none ∧
    cycleNodes cycleExampleRules = ["A", "B"] ∧
    ∀ (rules : Rules) (row : PRow),
      getExecutionOrder rules = none → processRow rules row = [] := by
  refine ⟨by decide, by decide, ?_⟩
  intro rules row h
  unfold processRow
  rw [h]

/-- Witness for C2: the cyclic example rule set applied to a concrete
nonempty row yields the empty result. -/
theorem claim_C2_witness :
    processRow cycleExampleRules [("x", vStr "1")] = [] :=
  claim_C2.2.2 cycleExampleRules [("x", vStr "1")] claim_C2.1

/-! ## Claim C3: prioritized_list semantics -/

/-- The `prioritized_list` semantics as the claim states it: the result is
the whitespace-trimmed value of the first listed source whose value is
non-null and non-empty **after** trimming, and `""` when no source
qualifies. -/
def specPrioritized (row : PRow) : List String → String
  | [] => ""
  | s :: rest =>
      let v := rowGetD row s vNone
      let t := pyStrip v.pyStr
      if v.pdNotna && !t.data.isEmpty then t else specPrioritized row rest

/-- The rule and row of the counterexample: source `x` holds only
whitespace, source `y` holds `"5"`. -/
def c3Rule : Rule := { rtype := some "prioritized_list", sources := ["x", "y"] }

/-- Row `x = " "`, `y = "5"`. -/
def c3Row : PRow := [("x", vStr " "), ("y", vStr "5")]

/-- **C3 counterexample**: on row `x = " "`, `y = "5"` the code returns
`""` — the whitespace-only source `x` is selected (its raw value is a
nonempty, hence truthy, string) and trimmed to nothing — whereas the claim
demands that `x` be skipped in favour of `y`, giving `"5"`. -/
theorem claim_C3_counterexample :
    applyPrioritizedList c3Rule c3Row = "" ∧
    specPrioritized c3Row c3Rule.sources = "5" ∧
    ("" : String) ≠ "5" :=
  ⟨by decide, by decide, by decide⟩

/-- The amended semantics: the first listed source whose **raw** value is
truthy and non-NA is selected and its value returned as
`str(value).strip()`; `""` when no source qualifies.  In particular a
whitespace-only source is selected and yields `""`, not skipped. -/
def amendedPrioritized (row : PRow) (sources : List String) : String :=
  match sources.find? (fun s =>
      (rowGetD row s vNone).pyTruthy && (rowGetD row s vNone).pdNotna) with
  | some s => pyStrip (rowGetD row s vNone).pyStr
  | none => ""

/-- `firstTruthy` agrees with the `find?` formulation. -/
theorem firstTruthy_eq_amended (row : PRow) (l : List String) :
    firstTruthy row l = amendedPrioritized row l := by
  induction l with
  | nil => rfl
  | cons s rest ih =>
      unfold firstTruthy amendedPrioritized
      by_cases hc : (rowGetD row s vNone).pyTruthy && (rowGetD row s vNone).pdNotna
      · simp [List.find?_cons, hc]
      · simp only [List.find?_cons, hc]
        simpa [amendedPrioritized, hc] using ih

/-- **C3 amended**: for every rule and row, `_apply_prioritized_list`
returns `str(value).strip()` of the first source whose raw (untrimmed)
value is truthy and not NA, and `""` when no source qualifies. -/
theorem claim_C3_amended (rule : Rule) (row : PRow) :
    applyPrioritizedList rule row = amendedPrioritized row rule.sources :=
  firstTruthy_eq_amended row rule.sources

/-! ## Claim C9: self-referential linking -/

/-- A file whose drawing number is `A7` and whose single retained position
has part number `A7` — the record references itself. -/
def fileSelf : XFile := {
  hasImportSheet := true
  znrCell := vStr "A7"
  ncols := 16
  rows := [[vDec 1 0, vNan, vNan, vNan, vNan, vNan, vNan, vNan, vNan,
            vStr "A7", vNan, vNan, vDec 1 0]] }

/-- **C9**: the linking pass does not exclude the containing record: for
the registry produced from `fileSelf` alone, the record stored under key
`"A7"` contains a position whose cleaned part number is `"A7"`, and after
`run` that position's `sub_assembly` references key `"A7"` — the very
record containing it, a self-referential cycle in the assembly graph. -/
theorem claim_C9 :
    (alGet (bomProcessorRun defaultCfg [("a.xlsx", fileSelf)]) "A7").map
        (fun r => (r.zeichnungsnummer, r.positionen.map (fun p => alGet p "sub_assembly"))) =
      some ("A7", [some (PosVal.subAssembly "A7")]) := by
  decide

/-! ## Claim C8: POS sort key -/

/-- The sort key as the claim states it: the POS value coerced to float
when the coercion is defined, the `+infinity` sentinel (`⊤`) otherwise. -/
def claimPosKey (v : PosVal) : WithTop ℚ :=
  match posValFloat v with
  | some p => ((qval p.1 p.2 : ℚ) : WithTop ℚ)
  | none => ⊤

/-- **C8 counterexample**: for POS `-3` — a value that coerces to the
float `-3.0` — the code's digit test `str(-3).replace(".", "", 1).isdigit()`
fails on the minus sign, so the code assigns the `+infinity` sentinel
instead of `-3`: a negative POS sorts last, not first. -/
theorem claim_C8_counterexample :
    posSortKey [("POS", PosVal.cell (vDec (-3) 0))] = ⊤ ∧
    claimPosKey (PosVal.cell (vDec (-3) 0)) = ((-3 : ℚ) : WithTop ℚ) ∧
    (⊤ : WithTop ℚ) ≠ ((-3 : ℚ) : WithTop ℚ) := by
  refine ⟨rfl, ?_, ?_⟩
  · show ((qval (-3) 0 : ℚ) : WithTop ℚ) = ((-3 : ℚ) : WithTop ℚ)
    norm_num [qval]
  · exact fun h => WithTop.top_ne_coe h

/-- Structure of `splitCAux`: split at the first separator occurrence. -/
theorem splitCAux_structure (c : Char) :
    ∀ (l acc : List Char), splitCAux c l acc =
      match l.dropWhile (fun x => !(x == c)) with
      | [] => [acc.reverse ++ l]
      | _ :: rest =>
          (acc.reverse ++ l.takeWhile (fun x => !(x == c))) :: splitCAux c rest []
  | [], acc => by simp [splitCAux]
  | x :: xs, acc => by
      by_cases hx : x == c
      · simp [splitCAux, hx, List.dropWhile, List.takeWhile]
      · have ih := splitCAux_structure c xs (x :: acc)
        simp only [splitCAux, hx, if_false, List.dropWhile, List.takeWhile,
          Bool.not_false, if_true] at ih ⊢
        rw [ih]
        cases xs.dropWhile (fun x => !(x == c)) with
        | nil => simp
        | cons d rest => simp

/-- `removeFirstDotChars` in terms of the first-dot decomposition. -/
theorem removeFirstDotChars_structure :
    ∀ l : List Char, removeFirstDotChars l =
      match l.dropWhile (fun x => !(x == '.')) with
      | [] => l
      | _ :: rest => l.takeWhile (fun x => !(x == '.')) ++ rest
  | [] => by simp [removeFirstDotChars]
  | x :: xs => by
      by_cases hx : x == '.'
      · simp [removeFirstDotChars, hx, List.dropWhile, List.takeWhile]
      · have ih := removeFirstDotChars_structure xs
        simp only [removeFirstDotChars, hx, if_false, List.dropWhile, List.takeWhile,
          Bool.not_false, if_true] at ih ⊢
        rw [ih]
        cases xs.dropWhile (fun x => !(x == '.')) with
        | nil => simp
        | cons d rest => simp

/-- A digit character differs from any concrete non-digit character. -/
theorem isDigit_ne_char {x : Char} (h : x.isDigit = true) (c : Char)
    (hc : c.isDigit = false) : (x == c) = false := by
  have hne : x ≠ c := fun e => by
    rw [e, hc] at h
    exact Bool.false_ne_true h
  simpa using hne

/-- A digit character is not whitespace. -/
theorem isDigit_not_space {x : Char} (h : x.isDigit = true) : isSpaceChar x = false := by
  simp only [isSpaceChar, Bool.or_eq_false_iff]
  exact ⟨⟨⟨isDigit_ne_char h ' ' (by decide), isDigit_ne_char h '\t' (by decide)⟩,
      isDigit_ne_char h '\n' (by decide)⟩, isDigit_ne_char h '\r' (by decide)⟩

/-- The digit test of the sort key, on character lists. -/
def digitTestChars (l : List Char) : Bool :=
  !(removeFirstDotChars l).isEmpty && allDigits (removeFirstDotChars l)

theorem pyIsdigit_removeFirstDot (s : String) :
    pyIsdigit (removeFirstDot s) = digitTestChars s.data := rfl

/-- Every character survives `removeFirstDotChars` except a dot. -/
theorem mem_removeFirstDotChars {x : Char} :
    ∀ {l : List Char}, x ∈ l → x ∈ removeFirstDotChars l ∨ x = '.'
  | [], hm => nomatch hm
  | c :: cs, hm => by
      by_cases hc : c == '.'
      · have hc' : c = '.' := by simpa using hc
        rcases List.mem_cons.mp hm with h | h
        · exact Or.inr (h.trans hc')
        · simp only [removeFirstDotChars, hc, if_true]
          exact Or.inl h
      · simp only [removeFirstDotChars, hc, if_false]
        rcases List.mem_cons.mp hm with h | h
        · exact Or.inl (h ▸ List.mem_cons_self c _)
        · rcases mem_removeFirstDotChars h with h' | h'
          · exact Or.inl (List.mem_cons_of_mem c h')
          · exact Or.inr h'

/-- `dropWhile` is the identity when the predicate fails on every element. -/
theorem dropWhile_eq_self_of_false {p : Char → Bool} :
    ∀ l : List Char, (∀ x ∈ l, p x = false) → l.dropWhile p = l
  | [], _ => rfl
  | c :: cs, h => by
      simp [List.dropWhile, h c (List.mem_cons_self c cs)]

/-- `trimChars` is the identity on whitespace-free lists. -/
theorem trimChars_eq_self {l : List Char} (h : ∀ x ∈ l, isSpaceChar x = false) :
    trimChars l = l := by
  unfold trimChars
  rw [dropWhile_eq_self_of_false l h,
    dropWhile_eq_self_of_false l.reverse (fun x hx => h x (List.mem_reverse.mp hx)),
    List.reverse_reverse]

/-- When the digit test passes, the unsigned decimal parse succeeds. -/
theorem parseUnsignedDec_isSome_of_digitTest {l : List Char}
    (h : digitTestChars l = true) : (parseUnsignedDec l).isSome = true := by
  have hne : (removeFirstDotChars l).isEmpty = false := by
    have := (Bool.and_eq_true _ _ |>.mp h).1
    simpa using this
  have hdig : allDigits (removeFirstDotChars l) = true :=
    (Bool.and_eq_true _ _ |>.mp h).2
  rw [removeFirstDotChars_structure] at hne hdig
  unfold parseUnsignedDec
  rw [splitCAux_structure]
  cases hd : l.dropWhile (fun x => !(x == '.')) with
  | nil =>
      rw [hd] at hne hdig
      simp only [hd, List.reverse_nil, List.nil_append]
      simp [hne, hdig]
  | cons d rest =>
      simp only [hd] at hne hdig
      simp only [allDigits, List.all_append, Bool.and_eq_true] at hdig
      obtain ⟨htk, hrest⟩ := hdig
      have hrestnd : rest.dropWhile (fun x => !(x == '.')) = [] := by
        rw [List.dropWhile_eq_nil_iff]
        intro x hx
        have hxd : x.isDigit = true := by
          have := List.all_eq_true.mp hrest x hx
          simpa using this
        simp [isDigit_ne_char hxd '.' (by decide)]
      simp only [hd]
      rw [splitCAux_structure '.' rest []]
      simp only [hrestnd, List.reverse_nil, List.nil_append]
      have hor : (!(l.takeWhile (fun x => !(x == '.'))).isEmpty ||
          !rest.isEmpty) = true := by
        by_cases ht : l.takeWhile (fun x => !(x == '.')) = []
        · have hr : rest ≠ [] := by
            intro hrnil
            rw [ht, hrnil] at hne
            simp at hne
          simp [ht, hr]
        · simp [ht]
      simp [hor, allDigits, htk, hrest]

/-- Every character of a digit-test-passing list is a digit or a dot. -/
theorem mem_digit_or_dot {l : List Char} (h : digitTestChars l = true) :
    ∀ x ∈ l, x.isDigit = true ∨ x = '.' := by
  intro x hx
  have hdig : allDigits (removeFirstDotChars l) = true :=
    (Bool.and_eq_true _ _ |>.mp h).2
  rcases mem_removeFirstDotChars hx with hm | hm
  · exact Or.inl (by simpa using List.all_eq_true.mp hdig x hm)
  · exact Or.inr hm

/-- When the digit test passes, `float(s)` succeeds. -/
theorem parseFloat_isSome_of_digitTest {s : String}
    (h : digitTestChars s.data = true) : (parseFloat s).isSome = true := by
  have hchars := mem_digit_or_dot h
  have htrim : trimChars s.data = s.data := by
    apply trimChars_eq_self
    intro x hx
    rcases hchars x hx with hd | hd
    · exact isDigit_not_space hd
    · rw [hd]; rfl
  unfold parseFloat
  rw [htrim]
  have hlne : s.data ≠ [] := by
    intro hnil
    rw [digitTestChars, hnil] at h
    simp [removeFirstDotChars] at h
  cases hl : s.data with
  | nil => exact absurd hl hlne
  | cons c cs =>
      have hc := hchars c (hl ▸ List.mem_cons_self c cs)
      have hcm : (c == '-') = false ∧ (c == '+') = false := by
        rcases hc with hd | hd
        · exact ⟨isDigit_ne_char hd '-' (by decide), isDigit_ne_char hd '+' (by decide)⟩
        · rw [hd]; exact ⟨rfl, rfl⟩
      rw [hl] at h
      unfold parseSignedDec
      simp only [hcm.1, hcm.2, if_false]
      exact parseUnsignedDec_isSome_of_digitTest h

/-- **C8 amended**: the sort key equals the POS value coerced to a number
exactly when the code's digit test `str(POS).replace(".", "", 1).isdigit()`
passes — i.e. for unsigned decimal literals, where the coercion is always
defined — and is the `+infinity` sentinel for every other POS value,
including negative numbers (which do coerce to floats but fail the digit
test and therefore sort last). -/
theorem claim_C8_amended (item : Pos) (v : PosVal) (h : alGet item "POS" = some v) :
    (pyIsdigit (removeFirstDot (posValStr v)) = true →
        posSortKey item = claimPosKey v ∧ claimPosKey v ≠ ⊤) ∧
    (pyIsdigit (removeFirstDot (posValStr v)) = false → posSortKey item = ⊤) := by
  constructor
  · intro ht
    have hkey : posSortKey item = claimPosKey v := by
      unfold posSortKey
      rw [h]
      simp only [Option.getD_some, ht, if_true]
      rfl
    refine ⟨hkey, ?_⟩
    have hsome : (posValFloat v).isSome = true := by
      cases v with
      | cell pv =>
          cases pv with
          | vNone => exact absurd ht (by decide)
          | vNan => exact absurd ht (by decide)
          | vStr s =>
              rw [pyIsdigit_removeFirstDot] at ht
              exact parseFloat_isSome_of_digitTest ht
          | vDec n k => rfl
      | subAssembly k =>
          exfalso
          rw [show posValStr (PosVal.subAssembly k) =
            String.mk ('S' :: ("tueckliste(ZN: " ++ k ++ ")").data) from rfl] at ht
          rw [pyIsdigit_removeFirstDot] at ht
          have : digitTestChars ('S' :: ("tueckliste(ZN: " ++ k ++ ")").data) = false := by
            unfold digitTestChars removeFirstDotChars

            simp [allDigits]
          rw [this] at ht
          exact Bool.false_ne_true ht
    obtain ⟨p, hp⟩ := Option.isSome_iff_exists.mp hsome
    rw [claimPosKey, hp]
    exact WithTop.coe_ne_top
  · intro hf
    unfold posSortKey
    rw [h]
    simp only [Option.getD_some, hf]
    rfl

/-- Witness for the amended C8: a string POS `"3.5"` passes the digit test
and its key is the coerced value `3.5`, not the sentinel. -/
theorem claim_C8_amended_witness :
    posSortKey [("POS", PosVal.cell (vStr "3.5"))] =
      claimPosKey (PosVal.cell (vStr "3.5")) ∧
    claimPosKey (PosVal.cell (vStr "3.5")) ≠ ⊤ :=
  (claim_C8_amended [("POS", PosVal.cell (vStr "3.5"))] (PosVal.cell (vStr "3.5"))
    rfl).1 (by decide)

/-! ## Claim C5: the linking pass -/

/-- The cleaned part number of a position, as the claim describes it
(empty when the field is missing). -/
def posCleanedTeilenummer (p : Pos) : String :=
  match alGet p "Teilenummer" with
  | some (PosVal.cell v) => cleanTeilenummer v
  | _ => ""

/-- A string is empty iff its character list is. -/
theorem str_ne_empty_iff {s : String} : s ≠ "" ↔ s.data ≠ [] := by
  constructor
  · intro h hd
    exact h (by cases s with | mk l => cases hd; rfl)
  · intro h he
    exact h (by rw [he])

/-- Cleaning the empty part number yields the empty string. -/
theorem cleanTeilenummer_empty : cleanTeilenummer (vStr "") = "" := rfl

/-- **C5**: for every registry and every position whose part-number field
is a string (or absent): if the part number cleaned of a parenthetical
suffix and all spaces is a nonempty key of the registry, linking sets
exactly the key `sub_assembly` on that position — to a reference to the
registry's record for that key, not a copy — and leaves every other field
untouched; a position whose cleaned part number is empty or not a registry
key is left completely unchanged.  `linkPosition` is a total function, so
linking never raises for unmatched references. -/
theorem claim_C5 (reg : Registry) (p : Pos)
    (hstr : alGet p "Teilenummer" = none ∨
      ∃ s, alGet p "Teilenummer" = some (PosVal.cell (vStr s))) :
    (posCleanedTeilenummer p ≠ "" ∧ (alGet reg (posCleanedTeilenummer p)).isSome →
        alGet (linkPosition reg p) "sub_assembly" =
          some (PosVal.subAssembly (posCleanedTeilenummer p)) ∧
        (∀ n, n ≠ "sub_assembly" → alGet (linkPosition reg p) n = alGet p n) ∧
        ∃ r, alGet reg (posCleanedTeilenummer p) = some r) ∧
    (¬(posCleanedTeilenummer p ≠ "" ∧ (alGet reg (posCleanedTeilenummer p)).isSome) →
        linkPosition reg p = p) := by
  rcases hstr with hnone | ⟨s, hs⟩
  · have hct : posCleanedTeilenummer p = "" := by
      unfold posCleanedTeilenummer
      rw [hnone]
    constructor
    · intro ⟨hne, _⟩
      exact absurd hct hne
    · intro _
      unfold linkPosition
      rw [hnone]
  · have hct : posCleanedTeilenummer p = cleanTeilenummer (vStr s) := by
      unfold posCleanedTeilenummer
      rw [hs]
    by_cases hse : s = ""
    · subst hse
      rw [cleanTeilenummer_empty] at hct
      constructor
      · intro ⟨hne, _⟩
        exact absurd hct hne
      · intro _
        unfold linkPosition
        rw [hs]
        simp [PyVal.pyTruthy]
    · have htruthy : (vStr s).pyTruthy = true := by
        simp [PyVal.pyTruthy, str_ne_empty_iff.mp hse]
      rw [hct]
      constructor
      · intro ⟨hne, hsome⟩
        have hlink : linkPosition reg p =
            alSet p "sub_assembly" (PosVal.subAssembly (cleanTeilenummer (vStr s))) := by
          unfold linkPosition
          rw [hs]
          simp only [htruthy, if_true]
          rw [if_pos]
          simp [str_ne_empty_iff.mp hne, hsome]
        refine ⟨?_, ?_, Option.isSome_iff_exists.mp hsome⟩
        · rw [hlink]
          exact alGet_alSet_self p "sub_assembly" _
        · intro n hn
          rw [hlink]
          exact alGet_alSet_ne p "sub_assembly" n _ hn
      · intro hcond
        unfold linkPosition
        rw [hs]
        simp only [htruthy, if_true]
        rw [if_neg]
        intro hb
        simp only [Bool.and_eq_true, Bool.not_eq_true', List.isEmpty_eq_false] at hb
        exact hcond ⟨str_ne_empty_iff.mpr hb.1, hb.2⟩

/-- Witness for C5: a registry containing key `"07.123-4"` and a position
with raw part number `"07.123-4 (Rev.B)"`; linking attaches the reference. -/
theorem claim_C5_witness :
    alGet (linkPosition
        [("07.123-4", { zeichnungsnummer := "07.123-4", positionen := [], isLoaded := true })]
        [("POS", PosVal.cell (vDec 1 0)),
         ("Teilenummer", PosVal.cell (vStr "07.123-4 (Rev.B)"))]) "sub_assembly" =
      some (PosVal.subAssembly "07.123-4") := by
  have h := claim_C5
    [("07.123-4", { zeichnungsnummer := "07.123-4", positionen := [], isLoaded := true })]
    [("POS", PosVal.cell (vDec 1 0)),
     ("Teilenummer", PosVal.cell (vStr "07.123-4 (Rev.B)"))]
    (Or.inr ⟨"07.123-4 (Rev.B)", rfl⟩)
  exact (h.1 ⟨by decide, by decide⟩).1

/-! ## Claim C7: conditional semantics -/

/-- The semicolon-separated, trimmed literal set of a conditional's
comparison value. -/
def litSet (val : String) : List String := (pySplit ';' val).map pyStrip

/-- The tested value: the trimmed string form of the `if.source` row entry
(empty when the source or the row entry is missing). -/
def condSourceValue (rule : Rule) (row : PRow) : String :=
  pyStrip (match rule.ifSource with
    | none => ""
    | some k => (rowGetD row k (vStr "")).pyStr)

/-- The claim's operator semantics, as predicates over the trimmed source
value: `is`/`is_not` are membership tests in the literal set,
`is_empty`/`is_not_empty` test emptiness, `contains` asks whether some
literal is a substring. -/
def specCondHolds (s : String) (op : String) (val : String) : Prop :=
  match op with
  | "is" => s ∈ litSet val
  | "is_not" => s ∉ litSet val
  | "is_empty" => s = ""
  | "is_not_empty" => s ≠ ""
  | "contains" => ∃ sub ∈ litSet val, strContainsSub s sub = true
  | _ => False

/-- The claim's branch result: the trimmed value of the branch source; a
missing branch source, or a missing row entry, yields the empty string. -/
def specBranchValue (row : PRow) (src : Option String) : String :=
  match src with
  | none => ""
  | some k => pyStrip (rowGetD row k (vStr "")).pyStr

/-- A string's character list is `[]` iff the string is `""`. -/
theorem strDataEqNil_iff {s : String} : s.data = [] ↔ s = "" := by
  constructor
  · intro h
    cases s with
    | mk l => cases h; rfl
  · intro h
    rw [h]

/-- `_evaluate_condition` agrees with the claim's operator semantics for
the five documented operators. -/
theorem evaluateCondition_iff (s val : String) (op : String)
    (hops : op = "is" ∨ op = "is_not" ∨ op = "is_empty" ∨ op = "is_not_empty" ∨
      op = "contains") :
    evaluateCondition s (some op) val = true ↔ specCondHolds s op val := by
  rcases hops with h | h | h | h | h <;> subst h
  · simp [evaluateCondition, specCondHolds, litSet, List.contains, List.elem_iff]
  · simp [evaluateCondition, specCondHolds, litSet, List.contains, List.elem_iff]
  · simp [evaluateCondition, specCondHolds, strDataEqNil_iff]
  · simp [evaluateCondition, specCondHolds, strDataEqNil_iff]
  · simp [evaluateCondition, specCondHolds, litSet, List.any_eq_true]

/-- The engine's branch extraction agrees with the claim's for
string-valued (or missing) row entries. -/
theorem branch_value_eq (row : PRow) (src : Option String)
    (hrow : ∀ k, src = some k →
      alGet row k = none ∨ ∃ s, alGet row k = some (vStr s)) :
    (match (match src with
            | none => vNone
            | some k => rowGetD row k vNone) with
     | fv => if fv.pyTruthy && fv.pdNotna then pyStrip fv.pyStr else "") =
      specBranchValue row src := by
  cases src with
  | none => rfl
  | some k =>
      rcases hrow k rfl with hn | ⟨s, hsv⟩
      · simp only [rowGetD, hn, specBranchValue, Option.getD_none, PyVal.pyTruthy,
          PyVal.pdNotna, Bool.false_and, Bool.false_eq_true, if_false]
        rfl
      · by_cases hse : s = ""
        · subst hse
          simp only [rowGetD, hsv, specBranchValue, Option.getD_some, PyVal.pyTruthy,
            PyVal.pdNotna]
          rfl
        · simp [rowGetD, hsv, specBranchValue, PyVal.pyTruthy, PyVal.pdNotna,
            str_ne_empty_iff.mp hse]

/-- **C7**: for every row and every conditional rule using one of the five
documented operators, with string-valued (or missing) branch sources: the
operator is evaluated on the trimmed string value of `if.source`
(`is`/`is_not` = membership in the semicolon-split, trimmed literal set,
`is_empty`/`is_not_empty` = emptiness, `contains` = some literal is a
substring), and the result is the trimmed value of `then.source` when the
condition holds, else of `else.source`; a missing or empty branch source
yields the empty string. -/
theorem claim_C7 (rule : Rule) (row : PRow) (op : String)
    (hop : rule.ifOperator = some op)
    (hops : op = "is" ∨ op = "is_not" ∨ op = "is_empty" ∨ op = "is_not_empty" ∨
      op = "contains")
    (hbr : ∀ k, (rule.thenSource = some k ∨ rule.elseSource = some k) →
      alGet row k = none ∨ ∃ s, alGet row k = some (vStr s)) :
    (specCondHolds (condSourceValue rule row) op (rule.ifValue.getD "") →
        applyConditional rule row = specBranchValue row rule.thenSource) ∧
    (¬specCondHolds (condSourceValue rule row) op (rule.ifValue.getD "") →
        applyConditional rule row = specBranchValue row rule.elseSource) := by
  have hsrc : (pyStrip (match rule.ifSource with
      | none => (vStr "").pyStr
      | some k => (rowGetD row k (vStr "")).pyStr)) = condSourceValue rule row := by
    unfold condSourceValue
    cases rule.ifSource <;> rfl
  constructor
  · intro hc
    have hcond : evaluateCondition (condSourceValue rule row) (some op)
        (rule.ifValue.getD "") = true :=
      (evaluateCondition_iff _ _ op hops).mpr hc
    unfold applyConditional
    rw [hop]
    cases hif : rule.ifSource <;>
      · simp only [hif] at hsrc ⊢
        rw [hsrc, hcond]
        simp only [if_true]
        exact branch_value_eq row rule.thenSource
          (fun k hk => hbr k (Or.inl hk))
  · intro hc
    have hcond : evaluateCondition (condSourceValue rule row) (some op)
        (rule.ifValue.getD "") = false := by
      rcases hb : evaluateCondition (condSourceValue rule row) (some op)
          (rule.ifValue.getD "") with _ | _
      · rfl
      · exact absurd ((evaluateCondition_iff _ _ op hops).mp hb) hc
    unfold applyConditional
    rw [hop]
    cases hif : rule.ifSource <;>
      · simp only [hif] at hsrc ⊢
        rw [hsrc, hcond]
        simp only [Bool.false_eq_true, if_false]
        exact branch_value_eq row rule.elseSource
          (fun k hk => hbr k (Or.inr hk))

/-- Witness for C7: operator `is_empty` on an empty `afps` field takes the
then-branch and copies the trimmed `Benennung`. -/
theorem claim_C7_witness :
    applyConditional
        { rtype := some "conditional", ifSource := some "afps",
          ifOperator := some "is_empty", thenSource := some "Benennung",
          elseSource := some "afps" }
        [("afps", vStr ""), ("Benennung", vStr " Schraube ")] =
      specBranchValue [("afps", vStr ""), ("Benennung", vStr " Schraube ")]
        (some "Benennung") := by
  have h := claim_C7
    { rtype := some "conditional", ifSource := some "afps",
      ifOperator := some "is_empty", thenSource := some "Benennung",
      elseSource := some "afps" }
    [("afps", vStr ""), ("Benennung", vStr " Schraube ")]
    "is_empty" rfl (Or.inr (Or.inr (Or.inl rfl)))
    (fun k hk => by
      rcases hk with hk | hk <;> cases hk
      · exact Or.inr ⟨" Schraube ", rfl⟩
      · exact Or.inr ⟨"", rfl⟩)
  exact h.1 (show condSourceValue
    { rtype := some "conditional", ifSource := some "afps",
      ifOperator := some "is_empty", thenSource := some "Benennung",
      elseSource := some "afps" }
    [("afps", vStr ""), ("Benennung", vStr " Schraube ")] = "" by decide)

/-! ## Claim C6: registry construction and last-write-wins -/

/-- The record a directory entry contributes under registry key `k`:
`some` exactly when the filename is processed, the load succeeded, and the
cleaned drawing number equals `k`. -/
def eligibleRecord (cfg : LoadCfg) (k : String) (nf : String × XFile) : Option BomRecord :=
  if validBomFilename nf.1 && (loadData cfg nf.2).isLoaded &&
      ((loadData cfg nf.2).zeichnungsnummer == k) then some (loadData cfg nf.2)
  else none

theorem getLast?_cons_or {α : Type} (b : α) (m : List α) (x : Option α) :
    ((b :: m).getLast?).or x = (m.getLast?).or (some b) := by
  cases m with
  | nil => rfl
  | cons c m' =>
      rw [List.getLast?_cons_cons]
      have hs : ((c :: m').getLast?).isSome = true := by
        rw [List.getLast?_isSome]
        exact List.cons_ne_nil c m'
      obtain ⟨a, ha⟩ := Option.isSome_iff_exists.mp hs
      rw [ha]
      rfl

/-- When a directory entry is eligible for key `k`, the loop body inserts
its record under `k`. -/
theorem loadStep_of_eligible {cfg : LoadCfg} {k : String} {nf : String × XFile}
    {b : BomRecord} (hk : k ≠ "") (he : eligibleRecord cfg k nf = some b)
    (reg : Registry) : loadStep cfg reg nf = alSet reg k b := by
  unfold eligibleRecord at he
  by_cases hc : (validBomFilename nf.1 && (loadData cfg nf.2).isLoaded &&
      ((loadData cfg nf.2).zeichnungsnummer == k)) = true
  · rw [if_pos hc] at he
    have hb : loadData cfg nf.2 = b := Option.some.inj he
    simp only [Bool.and_eq_true] at hc
    obtain ⟨⟨hvalid, hloaded⟩, hzk⟩ := hc
    have hzk' : (loadData cfg nf.2).zeichnungsnummer = k := by simpa using hzk
    unfold loadStep
    rw [if_pos hvalid, if_pos, hzk', hb]
    rw [hloaded, hzk']
    simp [str_ne_empty_iff.mp hk]
  · rw [if_neg hc] at he
    exact absurd he (by simp)

/-- When a directory entry is not eligible for key `k`, the loop body does
not change what the registry stores under `k`. -/
theorem loadStep_lookup_of_not_eligible {cfg : LoadCfg} {k : String}
    {nf : String × XFile} (he : eligibleRecord cfg k nf = none) (reg : Registry) :
    alGet (loadStep cfg reg nf) k = alGet reg k := by
  unfold eligibleRecord at he
  unfold loadStep
  by_cases hvalid : validBomFilename nf.1
  · rw [if_pos hvalid]
    by_cases hins : ((loadData cfg nf.2).isLoaded &&
        !(loadData cfg nf.2).zeichnungsnummer.data.isEmpty) = true
    · rw [if_pos hins]
      simp only [Bool.and_eq_true] at hins
      have hzk : ((loadData cfg nf.2).zeichnungsnummer == k) = false := by
        by_cases hz : ((loadData cfg nf.2).zeichnungsnummer == k) = true
        · rw [if_pos (by simp [hvalid, hins.1, hz])] at he
          exact absurd he (by simp)
        · simpa using hz
      exact alGet_alSet_ne reg _ k _ (by simpa using (Ne.symm (by simpa using hzk)))
    · rw [if_neg hins]
  · rw [if_neg hvalid]

/-- The registry lookup after folding the load loop over a file list:
the last eligible record, or whatever the accumulator already stored. -/
theorem loadFold_lookup (cfg : LoadCfg) (k : String) (hk : k ≠ "") :
    ∀ (l : Folder) (acc : Registry),
      alGet (l.foldl (loadStep cfg) acc) k =
        ((l.filterMap (eligibleRecord cfg k)).getLast?).or (alGet acc k)
  | [], acc => by simp
  | nf :: rest, acc => by
      rw [List.foldl_cons, List.filterMap_cons]
      cases he : eligibleRecord cfg k nf with
      | none =>
          rw [loadFold_lookup cfg k hk rest _, loadStep_lookup_of_not_eligible he]
      | some b =>
          rw [loadFold_lookup cfg k hk rest _, loadStep_of_eligible hk he,
            alGet_alSet_self, getLast?_cons_or]

/-- Membership in a dict after assignment. -/
theorem mem_alSet {α : Type} {x : String × α} :
    ∀ {l : List (String × α)} {k : String} {v : α},
      x ∈ alSet l k v → x ∈ l ∨ x = (k, v)
  | [], k, v, hm => by
      simp only [alSet] at hm
      exact Or.inr (List.mem_singleton.mp hm)
  | p :: rest, k, v, hm => by
      by_cases hp : p.1 == k
      · simp only [alSet, hp, if_true] at hm
        rcases List.mem_cons.mp hm with h | h
        · exact Or.inr h
        · exact Or.inl (List.mem_cons_of_mem p h)
      · simp only [alSet, hp, if_false] at hm
        rcases List.mem_cons.mp hm with h | h
        · exact Or.inl (h ▸ List.mem_cons_self p rest)
        · rcases mem_alSet h with h' | h'
          · exact Or.inl (List.mem_cons_of_mem p h')
          · exact Or.inr h'

/-- Every registry entry's key is its record's nonempty drawing number and
the record loaded successfully (the loop body inserts nothing else). -/
theorem loadStep_wf {cfg : LoadCfg} {reg : Registry} {nf : String × XFile}
    (hreg : ∀ e ∈ reg, e.2.isLoaded = true ∧ e.1 ≠ "" ∧ e.2.zeichnungsnummer = e.1) :
    ∀ e ∈ loadStep cfg reg nf,
      e.2.isLoaded = true ∧ e.1 ≠ "" ∧ e.2.zeichnungsnummer = e.1 := by
  unfold loadStep
  by_cases hvalid : validBomFilename nf.1
  · rw [if_pos hvalid]
    by_cases hins : ((loadData cfg nf.2).isLoaded &&
        !(loadData cfg nf.2).zeichnungsnummer.data.isEmpty) = true
    · rw [if_pos hins]
      simp only [Bool.and_eq_true, Bool.not_eq_true'] at hins
      intro e he
      rcases mem_alSet he with h | h
      · exact hreg e h
      · rw [h]
        refine ⟨hins.1, ?_, rfl⟩
        intro hx
        have hx' : (loadData cfg nf.2).zeichnungsnummer = "" := hx
        rw [hx'] at hins
        exact absurd hins.2 (by decide)
    · rw [if_neg hins]
      exact hreg
  · rw [if_neg hvalid]
    exact hreg

/-- Fold version of `loadStep_wf`. -/
theorem loadFold_wf (cfg : LoadCfg) :
    ∀ (l : Folder) (acc : Registry),
      (∀ e ∈ acc, e.2.isLoaded = true ∧ e.1 ≠ "" ∧ e.2.zeichnungsnummer = e.1) →
      ∀ e ∈ l.foldl (loadStep cfg) acc,
        e.2.isLoaded = true ∧ e.1 ≠ "" ∧ e.2.zeichnungsnummer = e.1
  | [], _, hacc => hacc
  | nf :: rest, acc, hacc =>
      loadFold_wf cfg rest (loadStep cfg acc nf) (loadStep_wf hacc)

/-- **C6**: for every folder and every nonempty key, the registry maps the
key to the record of the *last* file in sorted-filename order that loaded
successfully with that cleaned drawing number (last-write-wins, silently —
the fold is total, no error path exists); and every registry entry stems
from a successful load with a nonempty drawing number equal to its key, so
failed loads and empty drawing numbers are excluded. -/
theorem claim_C6 (cfg : LoadCfg) (folder : Folder) (k : String) (hk : k ≠ "") :
    alGet (loadAllBoms cfg folder) k =
      ((sortFolder folder).filterMap (eligibleRecord cfg k)).getLast? ∧
    ∀ e ∈ loadAllBoms cfg folder,
      e.2.isLoaded = true ∧ e.1 ≠ "" ∧ e.2.zeichnungsnummer = e.1 := by
  constructor
  · unfold loadAllBoms
    rw [loadFold_lookup cfg k hk (sortFolder folder) []]
    simp [alGet]
  · exact loadFold_wf cfg (sortFolder folder) [] (by intro e he; exact absurd he (by simp))

/-- Duplicate-drawing-number file contents: `Benennung` is `"A"`. -/
def fileDupA : XFile := {
  hasImportSheet := true
  znrCell := vStr "Z9"
  ncols := 13
  rows := [[vDec 1 0, vNan, vNan, vStr "A", vNan, vNan, vNan, vNan, vNan,
            vNan, vNan, vNan, vDec 1 0]] }

/-- Duplicate-drawing-number file contents: `Benennung` is `"B"`. -/
def fileDupB : XFile := {
  hasImportSheet := true
  znrCell := vStr "Z9"
  ncols := 13
  rows := [[vDec 1 0, vNan, vNan, vStr "B", vNan, vNan, vNan, vNan, vNan,
            vNan, vNan, vNan, vDec 1 0]] }

/-- A folder whose two files clean to the same drawing number `Z9`. -/
def dupFolder : Folder := [("b.xlsx", fileDupB), ("a.xlsx", fileDupA)]

/-- Witness for C6: with two files both cleaning to `Z9`, the registry
holds the record of `b.xlsx` — the file loaded last in sorted order — and
that record differs from `a.xlsx`'s. -/
theorem claim_C6_witness :
    alGet (loadAllBoms defaultCfg dupFolder) "Z9" =
      ((sortFolder dupFolder).filterMap (eligibleRecord defaultCfg "Z9")).getLast? ∧
    alGet (loadAllBoms defaultCfg dupFolder) "Z9" = some (loadData defaultCfg fileDupB) ∧
    loadData defaultCfg fileDupB ≠ loadData defaultCfg fileDupA :=
  ⟨(claim_C6 defaultCfg dupFolder "Z9" (by decide)).1, by decide, by decide⟩

/-! ## Claim C10: a fully filtered file still loads -/

/-- **C10**: a file whose `Import` sheet exists, with enough columns, no
`astype` failure, and all of whose data rows are removed by the three
filters, loads successfully: `is_loaded = True` with an empty position
list; and, its cleaned drawing number being nonempty, it is included in
the registry like any other record. -/
theorem claim_C10 (f : XFile)
    (himp : f.hasImportSheet = true) (hcols : 12 < f.ncols)
    (hast : astypeRaises (rowsNumeric f) = false)
    (hkept : keptRows f = []) :
    (loadData defaultCfg f).isLoaded = true ∧
    (loadData defaultCfg f).positionen = [] ∧
    ∀ name, validBomFilename name = true →
      (loadData defaultCfg f).zeichnungsnummer ≠ "" →
      loadAllBoms defaultCfg [(name, f)] =
        [((loadData defaultCfg f).zeichnungsnummer, loadData defaultCfg f)] := by
  have hres : loadData defaultCfg f =
      ⟨cleanDrawingNumber f.znrCell, [], true⟩ := by
    unfold loadData
    rw [himp]
    rw [show alGet defaultCfg.colIndices "POS" = some 0 from rfl,
      show alGet defaultCfg.colIndices "Teileart" = some 12 from rfl]
    simp only [Bool.not_true, Bool.false_eq_true, if_false]
    rw [if_neg (by rw [show max 0 12 = 12 from rfl]; omega), hast]
    simp only [Bool.false_eq_true, if_false]
    rw [if_neg (by omega), hkept]
    rfl
  refine ⟨by rw [hres], by rw [hres], ?_⟩
  intro name hvalid hzn
  unfold loadAllBoms
  show loadStep defaultCfg [] (name, f) =
    [((loadData defaultCfg f).zeichnungsnummer, loadData defaultCfg f)]
  unfold loadStep
  rw [if_pos hvalid, if_pos]
  · rfl
  · rw [hres] at hzn ⊢
    simp [str_ne_empty_iff.mp hzn]

/-- A file whose single row is removed by the part-type filter
(`Teileart = 9`). -/
def fileNoRows : XFile := {
  hasImportSheet := true
  znrCell := vStr "Z5"
  ncols := 13
  rows := [[vDec 1 0, vNan, vNan, vNan, vNan, vNan, vNan, vNan, vNan,
            vNan, vNan, vNan, vDec 9 0]] }

/-- Witness for C10: the concrete fully filtered file loads with an empty
position list and lands in the registry. -/
theorem claim_C10_witness :
    (loadData defaultCfg fileNoRows).isLoaded = true ∧
    (loadData defaultCfg fileNoRows).positionen = [] ∧
    loadAllBoms defaultCfg [("a.xlsx", fileNoRows)] =
      [((loadData defaultCfg fileNoRows).zeichnungsnummer, loadData defaultCfg fileNoRows)] := by
  have h := claim_C10 fileNoRows (by decide) (by decide) (by decide) (by decide)
  exact ⟨h.1, h.2.1, h.2.2 "a.xlsx" (by decide) (by decide)⟩

/-! ## Claim C4: the POS validity filter -/

/-- `dEqInt` decides equality of the decimal with an integer, in `ℚ`. -/
theorem dEqInt_iff_qval (n : Int) (k : Nat) (m : Int) :
    dEqInt n k m = true ↔ qval n k = (m : ℚ) := by
  rw [dEqInt, beq_iff_eq, qval]
  have hpow : ((10 : ℚ) ^ k) ≠ 0 := by positivity
  constructor
  · intro h
    rw [h]
    push_cast
    field_simp
  · intro h
    rw [div_eq_iff hpow] at h
    exact_mod_cast h

/-- If the decimal equals an integer, truncation recovers that integer. -/
theorem truncD_of_qval_int {n : Int} {k : Nat} {m : Int}
    (h : qval n k = (m : ℚ)) : truncD n k = m := by
  have hn : n = m * 10 ^ k := by
    have := (dEqInt_iff_qval n k m).mpr h
    rw [dEqInt, beq_iff_eq] at this
    exact this
  rw [truncD, hn]
  exact Int.mul_tdiv_cancel m (by positivity)

/-- A row whose first cell is a number is not all-NA. -/
theorem rowNotAllNa_of_vDec {r : List PyVal} {n : Int} {k : Nat}
    (h : cellAt r 0 = vDec n k) : rowNotAllNa r = true := by
  cases r with
  | nil => exact absurd h (by simp [cellAt])
  | cons v rest =>
      have hv : v = vDec n k := h
      rw [hv]
      simp [rowNotAllNa, PyVal.isNa, PyVal.pdNotna]

/-- Lookup in a row whose values were transformed pointwise. -/
theorem alGet_mapVals {α β : Type} (g : α → β) (row : List (String × α)) (k : String) :
    alGet (row.map (fun p => (p.1, g p.2))) k = (alGet row k).map g := by
  induction row with
  | nil => simp [alGet]
  | cons p rest ih =>
      by_cases hp : p.1 == k
      · simp [alGet, hp]
      · simpa [alGet, hp] using ih

/-- Elements of a successful `traverseOption` all come from the input. -/
theorem traverseOption_mem {α β : Type} (g : α → Option β) :
    ∀ {l : List α} {l' : List β}, traverseOption g l = some l' →
      ∀ y ∈ l', ∃ x ∈ l, g x = some y
  | [], l', h => by
      simp only [traverseOption] at h
      cases h
      intro y hy
      exact absurd hy (by simp)
  | x :: xs, l', h => by
      simp only [traverseOption] at h
      cases hx : g x with
      | none => rw [hx] at h; exact absurd h (by simp)
      | some y0 =>
          rw [hx] at h
          cases hxs : traverseOption g xs with
          | none => rw [hxs] at h; exact absurd h (by simp)
          | some ys =>
              rw [hxs] at h
              cases h
              intro y hy
              rcases List.mem_cons.mp hy with hy | hy
              · exact ⟨x, List.mem_cons_self x xs, hy ▸ hx⟩
              · obtain ⟨x', hx', hgx'⟩ := traverseOption_mem g hxs y hy
                exact ⟨x', List.mem_cons_of_mem x hx', hgx'⟩

/-- `applyBusiness` never touches the `POS` field. -/
theorem applyBusiness_POS {x y : PRow} (h : applyBusiness x = some y) :
    alGet y "POS" = alGet x "POS" := by
  unfold applyBusiness at h
  dsimp only at h
  cases hm : formatMenge (alSet x "Benennung_Formatiert" (vStr (formatBenennung x))) with
  | none => rw [hm] at h; exact absurd h (by simp)
  | some mg =>
      rw [hm] at h
      cases h
      rw [alGet_alSet_ne _ _ _ _ (by decide), alGet_alSet_ne _ _ _ _ (by decide),
        alGet_alSet_ne _ _ _ _ (by decide), alGet_alSet_ne _ _ _ _ (by decide)]

/-- Part (a) of the amended C4: every row surviving the filters has an
integral numeric value in spreadsheet column 0. -/
theorem keptRows_integral (f : XFile) (r : List PyVal) (hr : r ∈ keptRows f) :
    ∃ n k, cellAt r 0 = vDec n k ∧
      toNumericQ (cellAt r 0) = some (qval n k) ∧
      qval n k = ((truncD n k : ℤ) : ℚ) := by
  unfold keptRows at hr
  have hpe : posEqAstype r = true := ((List.mem_filter.mp
    ((List.mem_filter.mp hr).1)).2)
  unfold posEqAstype at hpe
  split at hpe
  · rename_i n k heq
    refine ⟨n, k, heq, ?_, (dEqInt_iff_qval n k (truncD n k)).mp hpe⟩
    rw [heq]
    simp [toNumericQ, toNumeric]
  · simp at hpe

/-- Part (b) of the amended C4: under the default configuration (where the
POS column is column 0), every loaded position's `POS` field is a number
equal to its own integer truncation. -/
theorem loadData_positions_POS (f : XFile) (p : Pos)
    (hp : p ∈ (loadData defaultCfg f).positionen) :
    ∃ n k, alGet p "POS" = some (PosVal.cell (vDec n k)) ∧
      qval n k = ((truncD n k : ℤ) : ℚ) := by
  unfold loadData at hp
  rw [show alGet defaultCfg.colIndices "POS" = some 0 from rfl,
    show alGet defaultCfg.colIndices "Teileart" = some 12 from rfl] at hp
  dsimp only at hp
  split at hp
  · simp at hp
  split at hp
  · simp at hp
  split at hp
  · simp at hp
  split at hp
  · simp at hp
  rename_i hncols _ _
  split at hp
  · simp at hp
  split at hp
  · simp at hp
  rename_i enriched htrav
  simp only at hp
  obtain ⟨q, hq, rfl⟩ := List.mem_map.mp hp
  obtain ⟨q2, hq2, rfl⟩ := List.mem_map.mp hq
  obtain ⟨x, hx, hgx⟩ := traverseOption_mem applyBusiness htrav q2 hq2
  obtain ⟨x0, hx0, rfl⟩ := List.mem_map.mp hx
  obtain ⟨r, hr, rfl⟩ := List.mem_map.mp hx0
  obtain ⟨n, k, hcell, _, hqt⟩ := keptRows_integral f r hr
  have h0lt : 0 < f.ncols := by omega
  have h1 : alGet (mkPosition defaultCfg f.ncols r) "POS" =
      some (if 0 < f.ncols then cellAt r 0 else vStr "") := rfl
  rw [if_pos h0lt, hcell] at h1
  have h2 : alGet (fillnaRow (mkPosition defaultCfg f.ncols r)) "POS" =
      some (vDec n k) := by
    unfold fillnaRow
    rw [alGet_mapVals (fun v => if v.isNa = true then vStr "" else v)
      (mkPosition defaultCfg f.ncols r) "POS", h1]
    rfl
  have h3 : alGet q2 "POS" = some (vDec n k) := by
    rw [applyBusiness_POS hgx, h2]
  refine ⟨n, k, ?_, hqt⟩
  rw [alGet_posOfPRow, alGet_addManualColumns h3]
  rfl

/-- Part (c) of the amended C4: a row whose column-0 value is a fractional
number or fails numeric parsing is dropped silently — removing it from the
file changes nothing in the loader's result, so the row alone is excluded,
no error is raised, and all other rows are processed identically. -/
theorem loadData_insert_dropped (cfg : LoadCfg) (f : XFile)
    (rows₁ rows₂ : List (List PyVal)) (r : List PyVal)
    (hbad : toNumericQ (cellAt r 0) = none ∨
      ∃ n k, cellAt r 0 = vDec n k ∧ qval n k ≠ ((truncD n k : ℤ) : ℚ)) :
    loadData cfg { f with rows := rows₁ ++ r :: rows₂ } =
      loadData cfg { f with rows := rows₁ ++ rows₂ } := by
  have hA : astypeRaises (rowsNumeric { f with rows := rows₁ ++ r :: rows₂ }) =
      astypeRaises (rowsNumeric { f with rows := rows₁ ++ rows₂ }) ∧
      keptRows { f with rows := rows₁ ++ r :: rows₂ } =
      keptRows { f with rows := rows₁ ++ rows₂ } := by
    rcases hbad with hb | ⟨n, k, hcell, hfrac⟩
    · have hpn : posNumericOK r = false := by
        unfold posNumericOK
        cases ht : toNumeric (cellAt r 0) with
        | none => rfl
        | some q =>
            rw [show toNumericQ (cellAt r 0) =
              (toNumeric (cellAt r 0)).map (fun p => qval p.1 p.2) from rfl, ht] at hb
            exact absurd hb (by simp)
      have hrn : rowsNumeric { f with rows := rows₁ ++ r :: rows₂ } =
          rowsNumeric { f with rows := rows₁ ++ rows₂ } := by
        unfold rowsNumeric
        dsimp only
        by_cases hna : rowNotAllNa r
        · simp [List.filter_append, List.filter_cons, hna, hpn]
        · simp [List.filter_append, List.filter_cons, hna]
      exact ⟨by rw [hrn], by unfold keptRows; rw [hrn]⟩
    · have hna := rowNotAllNa_of_vDec hcell
      have hpn : posNumericOK r = true := by
        simp [posNumericOK, hcell, toNumeric]
      have hpe : posEqAstype r = false := by
        have hde : dEqInt n k (truncD n k) = false := by
          by_contra hx
          simp only [Bool.not_eq_false] at hx
          exact hfrac ((dEqInt_iff_qval n k (truncD n k)).mp hx)
        unfold posEqAstype
        rw [hcell]
        exact hde
      have ha : (astypeIntCell (cellAt r 0)).isNone = false := by
        rw [hcell]
        rfl
      constructor
      · unfold astypeRaises rowsNumeric
        dsimp only
        simp [List.filter_append, List.filter_cons, List.any_append, List.any_cons,
          hna, hpn, ha]
      · unfold keptRows rowsNumeric
        dsimp only
        simp [List.filter_append, List.filter_cons, hna, hpn, hpe]
  obtain ⟨hAr, hKr⟩ := hA
  unfold loadData
  rw [show ({ f with rows := rows₁ ++ r :: rows₂ } : XFile).hasImportSheet =
      f.hasImportSheet from rfl,
    show ({ f with rows := rows₁ ++ rows₂ } : XFile).hasImportSheet =
      f.hasImportSheet from rfl,
    show ({ f with rows := rows₁ ++ r :: rows₂ } : XFile).znrCell = f.znrCell from rfl,
    show ({ f with rows := rows₁ ++ rows₂ } : XFile).znrCell = f.znrCell from rfl,
    show ({ f with rows := rows₁ ++ r :: rows₂ } : XFile).ncols = f.ncols from rfl,
    show ({ f with rows := rows₁ ++ rows₂ } : XFile).ncols = f.ncols from rfl,
    hAr, hKr]

/-- A configuration that maps the logical POS field to column Q (index
16), leaving every other column at its default. -/
def cfgShifted : LoadCfg := {
  colIndices := [("POS", 16), ("Menge_val", 1), ("Einheit", 2), ("Benennung", 3),
    ("Zusatzbenennung", 4), ("Norm", 5), ("Abmessung", 6), ("Teilenummer", 9),
    ("Hersteller", 10), ("Hersteller_Nr", 11), ("AFPS", 15), ("Teileart", 12)]
  outputColumns := defaultOutputColumns }

/-- A file whose single row holds `1` in column 0, part type `1` in column
12, and the fractional value `3.5` in the configured POS column 16. -/
def fileShifted : XFile := {
  hasImportSheet := true
  znrCell := vStr "Z4"
  ncols := 17
  rows := [[vDec 1 0, vNan, vNan, vNan, vNan, vNan, vNan, vNan, vNan,
            vNan, vNan, vNan, vDec 1 0, vNan, vNan, vNan, vDec 35 1]] }

/-- **C4 counterexample**: the validity filter reads the hard-coded column
0 (`df_items.iloc[:, 0]`), not the configured POS column.  With POS mapped
to column 16, a row whose POS value is the fractional `3.5` is retained
(column 0 holds the integer `1`), so the loader does *not* keep rows only
when their POS value parses as a number equal to its own integer
truncation. -/
theorem claim_C4_counterexample :
    (loadData cfgShifted fileShifted).isLoaded = true ∧
    ((loadData cfgShifted fileShifted).positionen.map (fun p => alGet p "POS")) =
      [some (PosVal.cell (vDec 35 1))] ∧
    toNumericQ (vDec 35 1) = some (qval 35 1) ∧
    ∀ m : ℤ, qval 35 1 ≠ (m : ℚ) := by
  refine ⟨by decide, by decide, rfl, ?_⟩
  intro m h
  rw [qval] at h
  rw [div_eq_iff (by positivity : ((10 : ℚ) ^ 1) ≠ 0)] at h
  have h' : (35 : ℤ) = m * 10 ^ 1 := by exact_mod_cast h
  omega

/-- **C4 amended**: the validity filter applies to spreadsheet column 0 —
the POS column under the default configuration — regardless of the
configured POS mapping.  (a) Every row surviving the filters has a numeric
column-0 value equal to its own integer truncation; (b) under the default
configuration every loaded Position's `POS` field is such a value; (c) a
row whose column-0 value is a fractional number or fails numeric parsing
is dropped silently: deleting it from the file leaves the loader's result
unchanged, so the row alone is excluded, no error is raised, and the other
rows of the same file are still retained. -/
theorem claim_C4_amended :
    (∀ (f : XFile) (r : List PyVal), r ∈ keptRows f →
        ∃ n k, cellAt r 0 = vDec n k ∧
          toNumericQ (cellAt r 0) = some (qval n k) ∧
          qval n k = ((truncD n k : ℤ) : ℚ)) ∧
    (∀ (f : XFile) (p : Pos), p ∈ (loadData defaultCfg f).positionen →
        ∃ n k, alGet p "POS" = some (PosVal.cell (vDec n k)) ∧
          qval n k = ((truncD n k : ℤ) : ℚ)) ∧
    (∀ (cfg : LoadCfg) (f : XFile) (rows₁ rows₂ : List (List PyVal)) (r : List PyVal),
        (toNumericQ (cellAt r 0) = none ∨
          ∃ n k, cellAt r 0 = vDec n k ∧ qval n k ≠ ((truncD n k : ℤ) : ℚ)) →
        loadData cfg { f with rows := rows₁ ++ r :: rows₂ } =
          loadData cfg { f with rows := rows₁ ++ rows₂ }) :=
  ⟨keptRows_integral, loadData_positions_POS, loadData_insert_dropped⟩

/-- A data row retained by every filter (`POS = 1`, `Teileart = 1`). -/
def goodRow1 : List PyVal :=
  [vDec 1 0, vNan, vNan, vStr "A", vNan, vNan, vNan, vNan, vNan,
   vNan, vNan, vNan, vDec 1 0]

/-- A second retained data row (`POS = 2`, `Teileart = 4`). -/
def goodRow2 : List PyVal :=
  [vDec 2 0, vNan, vNan, vStr "B", vNan, vNan, vNan, vNan, vNan,
   vNan, vNan, vNan, vDec 4 0]

/-- A row with the fractional POS value `3.5` in column 0. -/
def fracRow : List PyVal :=
  [vDec 35 1, vNan, vNan, vStr "X", vNan, vNan, vNan, vNan, vNan,
   vNan, vNan, vNan, vDec 1 0]

/-- The shared file skeleton of the C4 witness. -/
def fileSkeleton : XFile := {
  hasImportSheet := true
  znrCell := vStr "Z3"
  ncols := 13
  rows := [] }

/-- Witness for the amended C4: inserting the fractional-POS row between
the two good rows changes nothing, and the file with both good rows loads
with exactly those two positions. -/
theorem claim_C4_amended_witness :
    loadData defaultCfg { fileSkeleton with rows := [goodRow1] ++ fracRow :: [goodRow2] } =
      loadData defaultCfg { fileSkeleton with rows := [goodRow1] ++ [goodRow2] } ∧
    (loadData defaultCfg { fileSkeleton with rows := [goodRow1] ++ [goodRow2] }).isLoaded
      = true ∧
    (loadData defaultCfg { fileSkeleton with rows :=
        [goodRow1] ++ [goodRow2] }).positionen.length = 2 := by
  refine ⟨claim_C4_amended.2.2 defaultCfg fileSkeleton [goodRow1] [goodRow2] fracRow
    (Or.inr ⟨35, 1, rfl, ?_⟩), by decide, by decide⟩
  rw [show truncD 35 1 = 3 from by decide]
  rw [qval]
  norm_num

/-! ## Claim C1: the pipeline never runs the rule engine -/

/-- A configured `generation_rules` entry for `Benennung_Formatiert`:
combine `Benennung` and `Zusatzbenennung` with a *space* separator
(a variation of the default configuration's rule, which an editor dialog
lets the user make). -/
def rulesC1 : Rules :=
  [("Benennung_Formatiert",
    { rtype := some "combine", sources := ["Benennung", "Zusatzbenennung"],
      separator := some " " })]

/-- A file with one retained row: `Benennung = "A"`,
`Zusatzbenennung = "B"`. -/
def fileC1 : XFile := {
  hasImportSheet := true
  znrCell := vStr "Z1"
  ncols := 13
  rows := [[vDec 1 0, vNan, vNan, vStr "A", vStr "B", vNan, vNan, vNan, vNan,
            vNan, vNan, vNan, vDec 1 0]] }

/-- The extracted and NA-filled row of `fileC1` — the per-position input
the rule engine would act on if `BomProcessor.run` invoked it. -/
def engineRowC1 : PRow :=
  [("POS", vDec 1 0), ("Menge_val", vStr ""), ("Einheit", vStr ""),
   ("Benennung", vStr "A"), ("Zusatzbenennung", vStr "B"), ("Norm", vStr ""),
   ("Abmessung", vStr ""), ("Teilenummer", vStr ""), ("Hersteller", vStr ""),
   ("Hersteller_Nr", vStr ""), ("AFPS", vStr ""), ("Teileart", vDec 1 0)]

/-- **C1**: `BomProcessor.run` calls only `_load_all_boms` and
`_link_assemblies`; no `RuleEngine` is ever constructed and
`generation_rules` is never read by the pipeline (its model `LoadCfg`
accordingly has no rules field).  The derived display fields come from the
hard-coded helpers inside `Stueckliste._load_data`.  Concretely: with the
configured rule joining `Benennung` and `Zusatzbenennung` by a space, the
pipeline still produces the hard-coded `"A\nB"` for
`Benennung_Formatiert`, while evaluating the configured rules on the same
position yields `"A B"` — the derived fields are *not* produced by the
rule engine from the configuration. -/
theorem claim_C1_divergence :
    (alGet (bomProcessorRun defaultCfg [("a.xlsx", fileC1)]) "Z1").map
        (fun rec => rec.positionen.map (fun p => alGet p "Benennung_Formatiert")) =
      some [some (PosVal.cell (vStr "A\nB"))] ∧
    alGet (processRow rulesC1 engineRowC1) "Benennung_Formatiert" = some "A B" ∧
    ("A\nB" : String) ≠ "A B" :=
  ⟨by decide, by decide, by decide⟩

end Katalog
